import Mathlib

/-!
Verification of the audio relay of the Omnidock-it repository.

The source file (an `index.tsx` React application) contains a small real-time
audio relay: base64 helpers `encode`/`decode`, a PCM decoder
`decodeAudioData`, an outbound encoder inside `processor.onaudioprocess`, a
playback scheduler inside the live session's `onmessage` callback, and the
session lifecycle functions `startLiveComm` / `stopLiveComm` with the
callbacks `onopen` / `onclose` / `onerror`.

This development shallowly embeds those pieces:
* machine bytes are `Nat` values (< 256 where the source guarantees it via
  `Uint8Array`), 16-bit samples are `Int` values with explicit wrapping,
  floating-point samples are `ℚ` (every IEEE double is a dyadic rational and
  every operation performed by the source on samples — multiply or divide by
  the power of two 32768, truncate to an integer — is exact on doubles in the
  exercised range, so the rational model is exact);
* the browser built-ins `btoa`/`atob` are modelled as RFC 4648 base64 over
  char lists (the canonical padded form that `btoa` emits; `atob`'s forgiving
  extensions — whitespace stripping, omitted padding — are not exercised by
  any property below);
* stateful callbacks become pure functions on explicit state records.
-/

namespace OmniDock

/-- Base64 alphabet used by `btoa`/`atob` (RFC 4648, positions 0–63). -/
def b64Alphabet : List Char :=
  ['A', 'B', 'C', 'D', 'E', 'F', 'G', 'H', 'I', 'J', 'K', 'L', 'M',
   'N', 'O', 'P', 'Q', 'R', 'S', 'T', 'U', 'V', 'W', 'X', 'Y', 'Z',
   'a', 'b', 'c', 'd', 'e', 'f', 'g', 'h', 'i', 'j', 'k', 'l', 'm',
   'n', 'o', 'p', 'q', 'r', 's', 't', 'u', 'v', 'w', 'x', 'y', 'z',
   '0', '1', '2', '3', '4', '5', '6', '7', '8', '9', '+', '/']

/-- Character for a six-bit value (index into the base64 alphabet). -/
def b64chr (n : ℕ) : Char := b64Alphabet.getD n 'A'

/-- Position search in a char list, accumulating the index. -/
def findIdx (c : Char) : List Char → ℕ → Option ℕ
  | [], _ => none
  | a :: rest, i => if a = c then some i else findIdx c rest (i + 1)

/-- Six-bit value of a base64 character, `none` for characters outside the
alphabet (on which `atob` throws). -/
def sextOf (c : Char) : Option ℕ := findIdx c b64Alphabet 0

/-- RFC 4648 base64 encoding of a byte sequence, three bytes to four
characters, with `=` padding, as produced by the browser's `btoa`. -/
def b64encode : List ℕ → List Char
  | [] => []
  | [a] => [b64chr (a / 4), b64chr (a % 4 * 16), '=', '=']
  | [a, b] => [b64chr (a / 4), b64chr (a % 4 * 16 + b / 16), b64chr (b % 16 * 4), '=']
  | a :: b :: c :: rest =>
      b64chr (a / 4) :: b64chr (a % 4 * 16 + b / 16) ::
      b64chr (b % 16 * 4 + c / 64) :: b64chr (c % 64) :: b64encode rest

/-- Base64 decoding of canonical padded base64 text, four characters to three
bytes, as performed by the browser's `atob`; `none` models the
`InvalidCharacterError` that `atob` throws on malformed input. -/
def b64decode : List Char → Option (List ℕ)
  | [] => some []
  | c0 :: c1 :: c2 :: c3 :: rest =>
    match sextOf c0, sextOf c1 with
    | some s0, some s1 =>
      if c2 = '=' then
        if c3 = '=' ∧ rest = [] then some [s0 * 4 + s1 / 16] else none
      else
        match sextOf c2 with
        | some s2 =>
          if c3 = '=' then
            if rest = [] then some [s0 * 4 + s1 / 16, s1 % 16 * 16 + s2 / 4] else none
          else
            match sextOf c3 with
            | some s3 =>
                (b64decode rest).map
                  (fun t => (s0 * 4 + s1 / 16) :: (s1 % 16 * 16 + s2 / 4) ::
                            (s2 % 4 * 64 + s3) :: t)
            | none => none
        | none => none
    | _, _ => none
  | _ => none

/-- Source `encode` (lines 19–23): builds a binary string whose char codes are
the bytes (`String.fromCharCode`) and applies `btoa`.  The char-code step is
the identity on the byte values, so the function is `btoa` on the bytes;
`btoa` throws (`none`) when a char code exceeds 255, which a `Uint8Array`
argument never produces. -/
def encode (bytes : List ℕ) : Option (List Char) :=
  if bytes.all (fun b => b < 256) then some (b64encode bytes) else none

/-- Source `decode` (lines 12–18): applies `atob` and reads the char codes of
the resulting binary string back into a `Uint8Array`; again the char-code
step is the identity, so the function is `atob` on the text. -/
def decode (s : List Char) : Option (List ℕ) := b64decode s

lemma sextOf_b64chr : ∀ n, n < 64 → sextOf (b64chr n) = some n := by decide

lemma b64chr_ne_pad : ∀ n, n < 64 → b64chr n ≠ '=' := by decide

lemma b64_roundtrip : ∀ l : List ℕ, (∀ b ∈ l, b < 256) →
    b64decode (b64encode l) = some l
  | [] => fun _ => rfl
  | [a] => by
    intro h
    have ha : a < 256 := h a (by simp)
    have h0 := sextOf_b64chr (a / 4) (by omega)
    have h1 := sextOf_b64chr (a % 4 * 16) (by omega)
    simp only [b64encode, b64decode, h0, h1, if_pos rfl, and_self]
    simp
    omega
  | [a, b] => by
    intro h
    have ha : a < 256 := h a (by simp)
    have hb : b < 256 := h b (by simp)
    have h0 := sextOf_b64chr (a / 4) (by omega)
    have h1 := sextOf_b64chr (a % 4 * 16 + b / 16) (by omega)
    have h2 := sextOf_b64chr (b % 16 * 4) (by omega)
    have hne := b64chr_ne_pad (b % 16 * 4) (by omega)
    simp only [b64encode, b64decode, h0, h1, h2, if_neg hne, if_pos rfl]
    simp
    omega
  | a :: b :: c :: rest => by
    intro h
    have ha : a < 256 := h a (by simp)
    have hb : b < 256 := h b (by simp)
    have hc : c < 256 := h c (by simp)
    have hrest : ∀ x ∈ rest, x < 256 := fun x hx => h x (by simp [hx])
    have h0 := sextOf_b64chr (a / 4) (by omega)
    have h1 := sextOf_b64chr (a % 4 * 16 + b / 16) (by omega)
    have h2 := sextOf_b64chr (b % 16 * 4 + c / 64) (by omega)
    have h3 := sextOf_b64chr (c % 64) (by omega)
    have hn2 := b64chr_ne_pad (b % 16 * 4 + c / 64) (by omega)
    have hn3 := b64chr_ne_pad (c % 64) (by omega)
    have ih := b64_roundtrip rest hrest
    simp only [b64encode, b64decode, h0, h1, h2, h3, if_neg hn2, if_neg hn3, ih,
      Option.map_some]
    simp
    omega

/-- C8: for every byte array `b` (all entries below 256, as `Uint8Array`
guarantees), the base64 `encode` helper followed by the base64 `decode`
helper is the identity: `decode (encode b) = b`. -/
theorem C8_base64_roundtrip (bs : List ℕ) (h : ∀ b ∈ bs, b < 256) :
    (encode bs).bind decode = some bs := by
  have hall : bs.all (fun b => b < 256) = true := by
    simp only [List.all_eq_true, decide_eq_true_eq]
    exact h
  simp only [encode, hall, if_pos, Option.bind_some, decode]
  exact b64_roundtrip bs h

/-- Witness for C8 at the concrete byte array `[0, 255, 100, 7]`. -/
theorem C8_base64_roundtrip_witness :
    (∀ b ∈ [0, 255, 100, 7], b < 256) ∧
    (encode [0, 255, 100, 7]).bind decode = some [0, 255, 100, 7] :=
  ⟨by decide, C8_base64_roundtrip [0, 255, 100, 7] (by decide)⟩

/-- Reinterpretation of a little-endian byte sequence as signed 16-bit
integers, as performed by `new Int16Array(data.buffer)` once the byte length
is even (the constructor itself throws on odd lengths; a trailing odd byte
never reaches this function through `decodeAudioData`). -/
def bytesToInt16 : List ℕ → List ℤ
  | a :: b :: rest =>
      (if 32768 ≤ a + 256 * b then (a : ℤ) + 256 * b - 65536 else (a : ℤ) + 256 * b) ::
        bytesToInt16 rest
  | _ => []

/-- Playable audio buffer as produced by `ctx.createBuffer` and filled by
`decodeAudioData`: per-channel lists of floating-point samples. -/
structure AudioBuffer where
  numChannels : ℕ
  frameCount : ℕ
  sampleRate : ℕ
  channels : List (List ℚ)
deriving DecidableEq

/-- Duration in seconds of a playable buffer (`buffer.duration` =
length / sampleRate in the Web Audio API). -/
def AudioBuffer.duration (b : AudioBuffer) : ℚ := (b.frameCount : ℚ) / (b.sampleRate : ℚ)

/-- Source `decodeAudioData` (lines 26–35).
`new Int16Array(data.buffer)` throws a `RangeError` when the byte length is
not a multiple of 2; this is the first guard.  The source then computes
`frameCount = dataInt16.length / numChannels` as floating-point division and
passes it to `ctx.createBuffer`, whose WebIDL `unsigned long` conversion
truncates it to `⌊dataInt16.length / numChannels⌋`; the fill loop `i <
frameCount` may run one extra iteration on a fractional `frameCount`, but its
write lands out of bounds of the channel's data array and is discarded by
typed-array semantics, so the effective result carries exactly the truncated
frame count, with every stored sample read in-bounds — the `Nat` division
below is therefore the exact effective semantics.  `createBuffer` throws
`NotSupportedError` when the channel count is outside 1–32, the frame count
is 0, or the sample rate is outside the 8000–96000 Hz nominal range. -/
def decodeAudioData (data : List ℕ) (sampleRate : ℕ) (numChannels : ℕ) :
    Except String AudioBuffer :=
  if data.length % 2 ≠ 0 then .error "RangeError"
  else
    let dataInt16 := bytesToInt16 data
    let frameCount := dataInt16.length / numChannels
    if numChannels = 0 ∨ 32 < numChannels then .error "NotSupportedError"
    else if frameCount = 0 then .error "NotSupportedError"
    else if sampleRate < 8000 ∨ 96000 < sampleRate then .error "NotSupportedError"
    else .ok (AudioBuffer.mk numChannels frameCount sampleRate
      ((List.range numChannels).map (fun channel =>
        (List.range frameCount).map (fun i =>
          ((dataInt16.getD (i * numChannels + channel) 0 : ℤ) : ℚ) / 32768))))

/-- Truncation toward zero, the `truncate` step of JavaScript's `ToInt16`
conversion applied when a number is stored into an `Int16Array`. -/
def jsTrunc (q : ℚ) : ℤ := if 0 ≤ q then ⌊q⌋ else ⌈q⌉

/-- Wrap an integer into the signed 16-bit range, the modulo step of
JavaScript's `ToInt16` conversion. -/
def toInt16 (n : ℤ) : ℤ :=
  if 32768 ≤ n % 65536 then n % 65536 - 65536 else n % 65536

/-- Outbound quantisation in `processor.onaudioprocess` (line 140):
`int16[i] = input[i] * 32768` stores through `ToInt16`, i.e. truncation
toward zero followed by 16-bit wrapping. -/
def sampleToInt16 (q : ℚ) : ℤ := toInt16 (jsTrunc (q * 32768))

/-- Little-endian byte pair of a signed 16-bit value, as laid out in the
`Int16Array`'s underlying buffer. -/
def int16ToBytes (v : ℤ) : List ℕ := [(v % 65536).toNat % 256, (v % 65536).toNat / 256]

/-- Byte image of an `Int16Array` (`new Uint8Array(int16.buffer)`). -/
def int16sToBytes (l : List ℤ) : List ℕ := (l.map int16ToBytes).flatten

/-- Outbound encoder of `processor.onaudioprocess` (lines 138–145): quantise
each captured sample to a signed 16-bit integer, view the result as bytes,
and base64-encode them for `sendRealtimeInput`. -/
def encodeAudioFrame (input : List ℚ) : Option (List Char) :=
  encode (int16sToBytes (input.map sampleToInt16))

lemma bytesToInt16_length : ∀ data : List ℕ, (bytesToInt16 data).length = data.length / 2
  | [] => by simp [bytesToInt16]
  | [_] => by simp [bytesToInt16]
  | _ :: _ :: rest => by
    simp only [bytesToInt16, List.length_cons, bytesToInt16_length rest]
    omega

lemma bytesToInt16_bound : ∀ data : List ℕ, (∀ b ∈ data, b < 256) →
    ∀ v ∈ bytesToInt16 data, -32768 ≤ v ∧ v < 32768
  | [] => by simp [bytesToInt16]
  | [_] => by simp [bytesToInt16]
  | a :: b :: rest => by
    intro h v hv
    have ha : a < 256 := h a (by simp)
    have hb : b < 256 := h b (by simp)
    have hrest : ∀ x ∈ rest, x < 256 := fun x hx => h x (by simp [hx])
    rcases List.mem_cons.mp hv with rfl | hv
    · constructor <;> (split <;> omega)
    · exact bytesToInt16_bound rest hrest v hv

lemma getD_mem_of_lt {α : Type} (l : List α) (i : ℕ) (d : α) (h : i < l.length) :
    l.getD i d ∈ l := by
  rw [List.getD_eq_getElem l d h]
  exact List.getElem_mem h

lemma int16_sample_range (v : ℤ) (h1 : -32768 ≤ v) (h2 : v < 32768) :
    -1 ≤ ((v : ℚ) / 32768) ∧ ((v : ℚ) / 32768) < 1 := by
  have h32 : (0 : ℚ) < 32768 := by norm_num
  constructor
  · rw [le_div_iff₀ h32]
    have : (-32768 : ℚ) ≤ (v : ℚ) := by exact_mod_cast h1
    linarith
  · rw [div_lt_iff₀ h32]
    have : (v : ℚ) < 32768 := by exact_mod_cast h2
    linarith

/-- C9: every sample value produced by `decodeAudioData` lies in the
half-open interval `[-1, 1)`: it is a signed 16-bit integer divided exactly
by 32768. -/
theorem C9_sample_range (data : List ℕ) (rate ch : ℕ) (buf : AudioBuffer)
    (hdata : ∀ b ∈ data, b < 256)
    (hok : decodeAudioData data rate ch = .ok buf) :
    ∀ chan ∈ buf.channels, ∀ q ∈ chan, -1 ≤ q ∧ q < 1 := by
  simp only [decodeAudioData] at hok
  split at hok
  · exact Except.noConfusion hok
  split at hok
  · exact Except.noConfusion hok
  split at hok
  · exact Except.noConfusion hok
  split at hok
  · exact Except.noConfusion hok
  injection hok with hbuf
  subst hbuf
  intro chan hchan q hq
  simp only [List.mem_map] at hchan
  obtain ⟨channel, _, rfl⟩ := hchan
  simp only [List.mem_map] at hq
  obtain ⟨i, _, rfl⟩ := hq
  have hvb : -32768 ≤ (bytesToInt16 data).getD (i * ch + channel) 0 ∧
      (bytesToInt16 data).getD (i * ch + channel) 0 < 32768 := by
    by_cases hlt : i * ch + channel < (bytesToInt16 data).length
    · exact bytesToInt16_bound data hdata _ (getD_mem_of_lt _ _ _ hlt)
    · rw [List.getD_eq_default _ _ (by omega)]
      norm_num
  exact int16_sample_range _ hvb.1 hvb.2

/-- Witness for C9: the byte block `[0, 128]` decodes (24 kHz, one channel)
to the single sample `-1`, which satisfies the range bounds. -/
theorem C9_sample_range_witness :
    (∀ b ∈ [0, 128], b < 256) ∧
    decodeAudioData [0, 128] 24000 1 = .ok (AudioBuffer.mk 1 1 24000 [[-1]]) ∧
    (∀ chan ∈ (AudioBuffer.mk 1 1 24000 [[-1]]).channels, ∀ q ∈ chan, -1 ≤ q ∧ q < 1) :=
  ⟨by decide, by norm_num [decodeAudioData, bytesToInt16, List.range_succ],
    C9_sample_range [0, 128] 24000 1 (AudioBuffer.mk 1 1 24000 [[-1]])
      (by decide) (by norm_num [decodeAudioData, bytesToInt16, List.range_succ])⟩

/-- Counterexample for C4: the one-byte block `[0]` has length 1, not a
multiple of 2 × 1, yet `decodeAudioData` does not succeed on it — the
`Int16Array` construction throws, so no buffer is produced. -/
theorem C4_counterexample : ¬ ∃ buf, decodeAudioData [0] 24000 1 = .ok buf := by
  intro hex
  obtain ⟨buf, h⟩ := hex
  simp [decodeAudioData] at h

/-- C4 as amended: a byte block of odd length makes `decodeAudioData` fail
with a `RangeError` (from `new Int16Array(data.buffer)`) instead of
truncating; a block of even length that is still not a multiple of
2 × channelCount (so channelCount ≥ 2), containing at least one complete
frame, decodes to exactly ⌊byteLength / (2 × channelCount)⌋ frames per
channel, silently discarding the remainder. -/
theorem C4_truncation_amended (data : List ℕ) (ch : ℕ) :
    (data.length % 2 = 1 → ∀ rate nc, decodeAudioData data rate nc = .error "RangeError") ∧
    (data.length % 2 = 0 → 2 ≤ ch → ch ≤ 32 → 1 ≤ data.length / (2 * ch) →
      ¬ (2 * ch ∣ data.length) →
      ∃ buf, decodeAudioData data 24000 ch = .ok buf ∧
        buf.frameCount = data.length / (2 * ch) ∧
        buf.channels.length = ch ∧
        ∀ chan ∈ buf.channels, chan.length = data.length / (2 * ch)) := by
  constructor
  · intro hodd rate nc
    unfold decodeAudioData
    rw [if_pos (by omega)]
  · intro heven hch2 hch32 hfc _
    have hlen : (bytesToInt16 data).length = data.length / 2 := bytesToInt16_length data
    have hfr : (bytesToInt16 data).length / ch = data.length / (2 * ch) := by
      rw [hlen, Nat.div_div_eq_div_mul]
    refine ⟨AudioBuffer.mk ch ((bytesToInt16 data).length / ch) 24000
      ((List.range ch).map (fun channel =>
        (List.range ((bytesToInt16 data).length / ch)).map (fun i =>
          ((bytesToInt16 data).getD (i * ch + channel) 0 : ℚ) / 32768))), ?_, ?_, ?_, ?_⟩
    · unfold decodeAudioData
      rw [if_neg (by omega), if_neg (by omega), if_neg (by rw [hfr]; omega),
        if_neg (by norm_num)]
    · simpa using hfr
    · simp
    · intro chan hchan
      simp only [List.mem_map] at hchan
      obtain ⟨channel, _, rfl⟩ := hchan
      simp [hfr]

/-- Witness for C4 as amended: the odd block `[0]` fails with `RangeError`;
the six-byte block decoded with two channels keeps ⌊6 / 4⌋ = 1 frame. -/
theorem C4_truncation_amended_witness :
    decodeAudioData [0] 24000 1 = .error "RangeError" ∧
    ∃ buf, decodeAudioData [0, 0, 0, 0, 0, 0] 24000 2 = .ok buf ∧
      buf.frameCount = 1 ∧ buf.channels.length = 2 ∧
      ∀ chan ∈ buf.channels, chan.length = 1 :=
  ⟨(C4_truncation_amended [0] 1).1 (by decide) 24000 1, by
    have h := (C4_truncation_amended [0, 0, 0, 0, 0, 0] 2).2
      (by decide) (by decide) (by decide) (by decide) (by decide)
    simpa using h⟩

lemma toInt16_range (n : ℤ) : -32768 ≤ toInt16 n ∧ toInt16 n < 32768 := by
  unfold toInt16
  split <;> omega

lemma int16sToBytes_cons (v : ℤ) (rest : List ℤ) :
    int16sToBytes (v :: rest) = int16ToBytes v ++ int16sToBytes rest := by
  simp [int16sToBytes]

lemma int16sToBytes_lt (l : List ℤ) : ∀ b ∈ int16sToBytes l, b < 256 := by
  intro b hb
  simp only [int16sToBytes, List.mem_flatten, List.mem_map] at hb
  obtain ⟨bs, ⟨v, _, rfl⟩, hbmem⟩ := hb
  simp only [int16ToBytes, List.mem_cons, List.not_mem_nil, or_false] at hbmem
  rcases hbmem with rfl | rfl
  · omega
  · omega

lemma int16sToBytes_length : ∀ l : List ℤ, (int16sToBytes l).length = 2 * l.length
  | [] => rfl
  | v :: rest => by
    rw [int16sToBytes_cons, List.length_append, int16sToBytes_length rest]
    simp [int16ToBytes]
    omega

lemma bytesToInt16_int16sToBytes : ∀ l : List ℤ,
    (∀ v ∈ l, -32768 ≤ v ∧ v < 32768) → bytesToInt16 (int16sToBytes l) = l
  | [] => by intro _; rfl
  | v :: rest => by
    intro h
    have hv := h v (by simp)
    have hrest : ∀ x ∈ rest, -32768 ≤ x ∧ x < 32768 := fun x hx => h x (by simp [hx])
    rw [int16sToBytes_cons]
    simp only [int16ToBytes, List.cons_append, List.nil_append]
    simp only [bytesToInt16, bytesToInt16_int16sToBytes rest hrest]
    congr 1
    split <;> omega

lemma map_range_getD {α β : Type} (l : List α) (d : α) (f : α → β) :
    (List.range l.length).map (fun i => f (l.getD i d)) = l.map f := by
  induction l with
  | nil => simp
  | cons a t ih =>
    rw [List.length_cons, List.range_succ_eq_map]
    have hcomp : ((fun i => f ((a :: t).getD i d)) ∘ Nat.succ) =
        fun i => f (t.getD i d) := by
      funext i
      simp [List.getD_cons_succ]
    simp only [List.map_cons, List.getD_cons_zero, List.map_map, hcomp, ih]

lemma getD_map_of_lt {α β : Type} (l : List α) (f : α → β) (i : ℕ) (d : α) (dd : β)
    (h : i < l.length) : (l.map f).getD i dd = f (l.getD i d) := by
  rw [List.getD_eq_getElem (l.map f) dd (by simpa using h), List.getD_eq_getElem l d h]
  simp

/-- Effective result of `decodeAudioData` on the byte image of a 16-bit
sample list, one channel, 24 kHz. -/
lemma decodeAudioData_pcm (l : List ℤ) (hrange : ∀ v ∈ l, -32768 ≤ v ∧ v < 32768)
    (hne : l ≠ []) :
    decodeAudioData (int16sToBytes l) 24000 1 =
      .ok (AudioBuffer.mk 1 l.length 24000 [l.map (fun v => ((v : ℤ) : ℚ) / 32768)]) := by
  have hi16 : bytesToInt16 (int16sToBytes l) = l := bytesToInt16_int16sToBytes l hrange
  have hlen2 : (int16sToBytes l).length = 2 * l.length := int16sToBytes_length l
  have hn : ¬ l.length = 0 := by
    intro h0
    exact hne (List.eq_nil_of_length_eq_zero h0)
  unfold decodeAudioData
  rw [if_neg (by rw [hlen2]; omega)]
  simp only [hi16, Nat.div_one]
  rw [if_neg (by norm_num), if_neg hn, if_neg (by norm_num)]
  have hr1 : List.range 1 = [0] := rfl
  rw [hr1]
  simp only [List.map_cons, List.map_nil, mul_one, add_zero]
  rw [map_range_getD l 0 (fun v => ((v : ℤ) : ℚ) / 32768)]

/-- Outbound samples quantise to within one half-step of the original. -/
lemma sample_close (q : ℚ) (h1 : -1 ≤ q) (h2 : q < 1) :
    |((sampleToInt16 q : ℤ) : ℚ) / 32768 - q| ≤ 1 / 32768 := by
  have hx1 : (-32768 : ℚ) ≤ q * 32768 := by linarith
  have hx2 : q * 32768 < 32768 := by linarith
  have hrange : -32768 ≤ jsTrunc (q * 32768) ∧ jsTrunc (q * 32768) < 32768 := by
    unfold jsTrunc
    split
    · constructor
      · have h0 : 0 ≤ ⌊q * 32768⌋ := Int.floor_nonneg.mpr (by assumption)
        omega
      · exact Int.floor_lt.mpr (by exact_mod_cast hx2)
    · constructor
      · have hcc := Int.ceil_le_ceil (show ((-32768 : ℤ) : ℚ) ≤ q * 32768 by
          exact_mod_cast hx1)
        simpa using hcc
      · have hneg : q * 32768 ≤ 0 := le_of_lt (by linarith [not_le.mp (by assumption)])
        have hc0 : ⌈q * 32768⌉ ≤ 0 := Int.ceil_le.mpr (by exact_mod_cast hneg)
        omega
  have htr : toInt16 (jsTrunc (q * 32768)) = jsTrunc (q * 32768) := by
    unfold toInt16
    split <;> omega
  have hlow : q * 32768 - 1 < (jsTrunc (q * 32768) : ℚ) := by
    unfold jsTrunc
    split
    · have hf := Int.lt_floor_add_one (q * 32768)
      push_cast at hf ⊢
      linarith
    · have hc := Int.le_ceil (q * 32768)
      push_cast at hc ⊢
      linarith
  have hhigh : (jsTrunc (q * 32768) : ℚ) < q * 32768 + 1 := by
    unfold jsTrunc
    split
    · have hf := Int.floor_le (q * 32768)
      push_cast at hf ⊢
      linarith
    · have hc := Int.ceil_lt_add_one (q * 32768)
      push_cast at hc ⊢
      linarith
  simp only [sampleToInt16, htr]
  rw [abs_le]
  constructor <;> [linarith; linarith]

/-- C3: encoding a floating-point sample block with the outbound encoder
(multiply by 32768, `ToInt16`, pack little-endian, base64) and decoding the
base64 text with the inbound path (`decode` then `decodeAudioData`, one
channel) reproduces every sample that lies in `[-1, 1)` to within 1/32768. -/
theorem C3_encode_decode_roundtrip (input : List ℚ) (hne : input ≠ [])
    (hb : ∀ q ∈ input, -1 ≤ q ∧ q < 1) :
    ∃ msg bytes buf,
      encodeAudioFrame input = some msg ∧
      decode msg = some bytes ∧
      decodeAudioData bytes 24000 1 = .ok buf ∧
      (buf.channels.headD []).length = input.length ∧
      ∀ i, i < input.length →
        |(buf.channels.headD []).getD i 0 - input.getD i 0| ≤ 1 / 32768 := by
  have hrange : ∀ v ∈ input.map sampleToInt16, -32768 ≤ v ∧ v < 32768 := by
    intro v hv
    simp only [List.mem_map] at hv
    obtain ⟨q, _, rfl⟩ := hv
    exact toInt16_range (jsTrunc (q * 32768))
  have hlmne : input.map sampleToInt16 ≠ [] := by
    intro h0
    exact hne (List.map_eq_nil_iff.mp h0)
  have hbytes := int16sToBytes_lt (input.map sampleToInt16)
  refine ⟨b64encode (int16sToBytes (input.map sampleToInt16)),
    int16sToBytes (input.map sampleToInt16),
    AudioBuffer.mk 1 (input.map sampleToInt16).length 24000
      [(input.map sampleToInt16).map (fun v => ((v : ℤ) : ℚ) / 32768)],
    ?_, ?_, ?_, ?_, ?_⟩
  · unfold encodeAudioFrame encode
    rw [if_pos]
    simp only [List.all_eq_true, decide_eq_true_eq]
    exact hbytes
  · exact b64_roundtrip _ hbytes
  · exact decodeAudioData_pcm (input.map sampleToInt16) hrange hlmne
  · simp
  · intro i hi
    simp only [List.headD_cons, List.map_map]
    rw [getD_map_of_lt input _ i 0 0 hi]
    exact sample_close (input.getD i 0) (hb _ (getD_mem_of_lt input i 0 hi)).1
      (hb _ (getD_mem_of_lt input i 0 hi)).2

/-- Witness for C3 at the one-sample block `[1/2]`. -/
theorem C3_encode_decode_roundtrip_witness :
    ([(1 : ℚ) / 2] ≠ []) ∧ (∀ q ∈ [(1 : ℚ) / 2], -1 ≤ q ∧ q < 1) ∧
    ∃ msg bytes buf,
      encodeAudioFrame [(1 : ℚ) / 2] = some msg ∧
      decode msg = some bytes ∧
      decodeAudioData bytes 24000 1 = .ok buf ∧
      (buf.channels.headD []).length = [(1 : ℚ) / 2].length ∧
      ∀ i, i < [(1 : ℚ) / 2].length →
        |(buf.channels.headD []).getD i 0 - [(1 : ℚ) / 2].getD i 0| ≤ 1 / 32768 :=
  ⟨by simp, by norm_num,
    C3_encode_decode_roundtrip [(1 : ℚ) / 2] (by simp) (by norm_num)⟩

/-- Duration in seconds (`buffer.duration`) of a decoded chunk of `frames`
frames at the inbound 24 kHz sample rate. -/
def chunkDuration (frames : ℕ) : ℚ := (frames : ℚ) / 24000

/-- Start times assigned by iterating the scheduling discipline of
`onmessage` (lines 112–118 of the source) over a sequence of calls, each a
pair of the output-clock time observed at the call and the decoded chunk's
frame count: cursor := max(cursor, currentTime); the chunk starts at the
cursor; cursor advances by the chunk's duration. -/
def runStarts (c : ℚ) : List (ℚ × ℕ) → List ℚ
  | [] => []
  | (now, fr) :: rest => max c now :: runStarts (max c now + chunkDuration fr) rest

/-- The (start time, duration) pairs scheduled by the same iteration. -/
def runSched (c : ℚ) : List (ℚ × ℕ) → List (ℚ × ℚ)
  | [] => []
  | (now, fr) :: rest =>
      (max c now, chunkDuration fr) :: runSched (max c now + chunkDuration fr) rest

/-- Cursor value before each call, and after the last call. -/
def cursorTrace (c : ℚ) : List (ℚ × ℕ) → List ℚ
  | [] => [c]
  | (now, fr) :: rest => c :: cursorTrace (max c now + chunkDuration fr) rest

/-- Predicate: every call observes an output-clock time no later than the
cursor current at that call (the claim's timeliness hypothesis). -/
def onTime (c : ℚ) : List (ℚ × ℕ) → Bool
  | [] => true
  | (now, fr) :: rest => decide (now ≤ c) && onTime (max c now + chunkDuration fr) rest

/-- Running-sum start times, the normal form of `runStarts` under
timeliness. -/
def scanStarts (c : ℚ) : List ℕ → List ℚ
  | [] => []
  | fr :: rest => c :: scanStarts (c + chunkDuration fr) rest

lemma chunkDuration_nonneg (fr : ℕ) : 0 ≤ chunkDuration fr := by
  unfold chunkDuration
  positivity

lemma scanStarts_length : ∀ (frs : List ℕ) (c : ℚ),
    (scanStarts c frs).length = frs.length
  | [], _ => rfl
  | _ :: rest, c => by
    simp [scanStarts, scanStarts_length rest]

lemma runStarts_onTime : ∀ (calls : List (ℚ × ℕ)) (c : ℚ), onTime c calls = true →
    runStarts c calls = scanStarts c (calls.map Prod.snd)
  | [], _ => fun _ => rfl
  | (now, fr) :: rest, c => by
    intro h
    simp only [onTime, Bool.and_eq_true, decide_eq_true_eq] at h
    have hmax : max c now = c := max_eq_left h.1
    have htail : onTime (c + chunkDuration fr) rest = true := by
      rw [← hmax]
      exact h.2
    simp only [runStarts, scanStarts, List.map_cons, hmax,
      runStarts_onTime rest (c + chunkDuration fr) htail]

lemma scanStarts_adj : ∀ (frs : List ℕ) (c : ℚ) (k : ℕ),
    k + 1 < (scanStarts c frs).length →
    (scanStarts c frs).getD (k + 1) 0 =
      (scanStarts c frs).getD k 0 + chunkDuration (frs.getD k 0)
  | [], c, k => by
    intro h
    simp [scanStarts] at h
  | fr :: rest, c, 0 => by
    intro h
    cases rest with
    | nil => simp [scanStarts] at h
    | cons fr2 rest2 => simp [scanStarts]
  | fr :: rest, c, k + 1 => by
    intro h
    have hlt : k + 1 < (scanStarts (c + chunkDuration fr) rest).length := by
      simp only [scanStarts, List.length_cons] at h
      omega
    simp only [scanStarts, List.getD_cons_succ]
    exact scanStarts_adj rest (c + chunkDuration fr) k hlt

lemma getD_map_snd : ∀ (l : List (ℚ × ℕ)) (k : ℕ),
    (l.map Prod.snd).getD k 0 = (l.getD k ((0 : ℚ), (0 : ℕ))).2
  | [], k => by simp
  | p :: rest, 0 => by simp
  | p :: rest, k + 1 => by
    simp only [List.map_cons, List.getD_cons_succ]
    exact getD_map_snd rest k

/-- C1: for a sequence of inbound chunks processed by the scheduler, with
each call arriving no later than the currently scheduled cursor time, the
assigned start times satisfy start(k+1) = start(k) + duration(k) exactly, and
the first start is no earlier than the output-clock time of the first
call. -/
theorem C1_gapless_scheduling (c : ℚ) (calls : List (ℚ × ℕ))
    (h : onTime c calls = true) :
    (∀ k, k + 1 < (runStarts c calls).length →
      (runStarts c calls).getD (k + 1) 0 =
        (runStarts c calls).getD k 0 + chunkDuration ((calls.getD k (0, 0)).2)) ∧
    (∀ p ∈ calls.head?, p.1 ≤ (runStarts c calls).getD 0 0) := by
  constructor
  · intro k hk
    rw [runStarts_onTime calls c h] at hk ⊢
    rw [scanStarts_adj (calls.map Prod.snd) c k hk, getD_map_snd]
  · intro p hp
    cases calls with
    | nil => simp at hp
    | cons q rest =>
      obtain ⟨now, fr⟩ := q
      simp only [List.head?_cons, Option.mem_def, Option.some.injEq] at hp
      subst hp
      simp only [runStarts, List.getD_cons_zero]
      exact le_max_right c now

/-- Witness for C1: two on-time chunks (12000 and 7200 frames) starting from
cursor 0. -/
theorem C1_gapless_scheduling_witness :
    (onTime 0 [((0 : ℚ), 12000), ((0 : ℚ), 7200)] = true) ∧
    ((∀ k, k + 1 < (runStarts 0 [((0 : ℚ), 12000), ((0 : ℚ), 7200)]).length →
      (runStarts 0 [((0 : ℚ), 12000), ((0 : ℚ), 7200)]).getD (k + 1) 0 =
        (runStarts 0 [((0 : ℚ), 12000), ((0 : ℚ), 7200)]).getD k 0 +
          chunkDuration (([((0 : ℚ), 12000), ((0 : ℚ), 7200)].getD k (0, 0)).2)) ∧
    (∀ p ∈ [((0 : ℚ), 12000), ((0 : ℚ), 7200)].head?,
      p.1 ≤ (runStarts 0 [((0 : ℚ), 12000), ((0 : ℚ), 7200)]).getD 0 0)) :=
  ⟨by norm_num [onTime, chunkDuration],
    C1_gapless_scheduling 0 [((0 : ℚ), 12000), ((0 : ℚ), 7200)]
      (by norm_num [onTime, chunkDuration])⟩

lemma runSched_start_lb : ∀ (calls : List (ℚ × ℕ)) (c : ℚ),
    ∀ p ∈ runSched c calls, c ≤ p.1
  | [], _ => by simp [runSched]
  | (now, fr) :: rest, c => by
    intro p hp
    simp only [runSched, List.mem_cons] at hp
    rcases hp with rfl | hp
    · exact le_max_left c now
    · have hc : c ≤ max c now + chunkDuration fr := by
        have := chunkDuration_nonneg fr
        have := le_max_left c now
        linarith
      exact le_trans hc (runSched_start_lb rest (max c now + chunkDuration fr) p hp)

lemma cursorTrace_head : ∀ (calls : List (ℚ × ℕ)) (c : ℚ),
    (cursorTrace c calls).head? = some c
  | [], _ => rfl
  | (_, _) :: _, _ => rfl

lemma cursorTrace_chain : ∀ (calls : List (ℚ × ℕ)) (c : ℚ),
    List.Chain' (fun a b => a ≤ b) (cursorTrace c calls)
  | [], c => by simp [cursorTrace]
  | (now, fr) :: rest, c => by
    rw [cursorTrace, List.chain'_cons']
    constructor
    · intro b hb
      rw [cursorTrace_head rest (max c now + chunkDuration fr)] at hb
      simp only [Option.mem_def, Option.some.injEq] at hb
      subst hb
      have := chunkDuration_nonneg fr
      have := le_max_left c now
      linarith
    · exact cursorTrace_chain rest (max c now + chunkDuration fr)

/-- C2: across any sequence of scheduler invocations, whatever output-clock
times are observed, the cursor never decreases, and the scheduled chunks are
pairwise non-overlapping (each earlier chunk ends no later than any later
chunk starts). -/
theorem C2_cursor_monotone_no_overlap (c : ℚ) (calls : List (ℚ × ℕ)) :
    List.Chain' (fun a b => a ≤ b) (cursorTrace c calls) ∧
    List.Pairwise (fun p q => p.1 + p.2 ≤ q.1) (runSched c calls) := by
  refine ⟨cursorTrace_chain calls c, ?_⟩
  induction calls generalizing c with
  | nil => simp [runSched]
  | cons q rest ih =>
    obtain ⟨now, fr⟩ := q
    rw [runSched, List.pairwise_cons]
    constructor
    · intro p hp
      exact runSched_start_lb rest (max c now + chunkDuration fr) p hp
    · exact ih (max c now + chunkDuration fr)

/-- Session state touched by the live-communication code: the
`isLiveActive` React flag, whether the refs (`audioContextRef`,
`liveSessionRef`) are set, counters of collaborator resources opened so far
(output audio contexts, live sessions, microphone streams) so that duplicate
opening is visible in the model, liveness of the current microphone stream
and input context, the playback cursor `nextStartTimeRef` and the active
source set `sourcesRef` (handles as numeric ids, insertion order kept). -/
structure AppState where
  isLiveActive : Bool
  outCtxSet : Bool
  outContexts : ℕ
  sessionsOpened : ℕ
  micStreams : ℕ
  micActive : Bool
  inCtxOpen : Bool
  hasLiveSession : Bool
  nextStartTime : ℚ
  sources : List ℕ
deriving DecidableEq

/-- State on page load: no session, refs null, cursor 0, no sources. -/
def initState : AppState := AppState.mk false false 0 0 0 false false false 0 []

/-- Source `startLiveComm` (lines 95–151): returns immediately when
`isLiveActive` is set (line 96); otherwise creates an output `AudioContext`
and stores it in the ref, connects a live session, acquires a microphone
stream, opens the input context and graph, and stores `liveSessionRef`.
While the session is Connecting — before `onopen` fires — `isLiveActive` is
still false. -/
def startLiveComm (s : AppState) : AppState :=
  if s.isLiveActive then s
  else
    { s with outCtxSet := true, outContexts := s.outContexts + 1,
             sessionsOpened := s.sessionsOpened + 1,
             micStreams := s.micStreams + 1, micActive := true,
             inCtxOpen := true, hasLiveSession := true }

/-- Source `onopen` callback (lines 104–107): sets the active flag. -/
def onopen (s : AppState) : AppState := { s with isLiveActive := true }

/-- Source `onclose` callback (line 121): clears the active flag. -/
def onclose (s : AppState) : AppState := { s with isLiveActive := false }

/-- Source `onerror` callback (line 122): `(e) => console.error(e)` — it
logs the error and changes no state. -/
def onerror (s : AppState) : AppState := s

/-- Source `stopLiveComm` (lines 152–158): when a live session ref exists,
stops the microphone tracks and closes the input context; then clears the
active flag.  It does not touch `sourcesRef`, `nextStartTimeRef`, the output
context or the remote session. -/
def stopLiveComm (s : AppState) : AppState :=
  if s.hasLiveSession then
    { s with micActive := false, inCtxOpen := false, isLiveActive := false }
  else { s with isLiveActive := false }

/-- Source `onmessage` callback (lines 108–120): reads the optional audio
payload; when it is present and nonempty (JS truthiness of the string) and
the output-context ref is set, clamps the cursor to the observed output
time, decodes the payload, schedules the buffer at the cursor, advances the
cursor by the buffer's duration and registers the new source handle.  When
base64 or PCM decoding throws, the async handler aborts after the clamp. -/
def onmessage (s : AppState) (now : ℚ) (payload : Option (List Char)) (srcId : ℕ) :
    AppState :=
  match payload with
  | none => s
  | some b64 =>
    if b64 = [] then s
    else if s.outCtxSet then
      let s1 := { s with nextStartTime := max s.nextStartTime now }
      match decode b64 with
      | none => s1
      | some bytes =>
        match decodeAudioData bytes 24000 1 with
        | .error _ => s1
        | .ok buf =>
          { s1 with nextStartTime := s1.nextStartTime + buf.duration,
                    sources := srcId :: s1.sources }
    else s

/-- Counterexample for C5: after a first start request, while the session is
still Connecting (the open callback has not fired, `isLiveActive` is false),
a second start request is not a no-op — it opens a second session, output
context and microphone stream. -/
theorem C5_counterexample :
    startLiveComm (startLiveComm initState) ≠ startLiveComm initState := by
  intro h
  have hs := congrArg AppState.sessionsOpened h
  simp [startLiveComm, initState] at hs

/-- C5 as amended: a start request while the session is Active
(`isLiveActive` set) is a no-op — state unchanged, nothing opened. -/
theorem C5_idempotent_active_amended (s : AppState) (h : s.isLiveActive = true) :
    startLiveComm s = s := by
  simp [startLiveComm, h]

/-- Witness for C5 as amended at the state reached by start-then-open. -/
theorem C5_idempotent_active_amended_witness :
    (onopen (startLiveComm initState)).isLiveActive = true ∧
    startLiveComm (onopen (startLiveComm initState)) = onopen (startLiveComm initState) :=
  ⟨rfl, C5_idempotent_active_amended (onopen (startLiveComm initState)) rfl⟩

/-- C6, evaluated at the failing input: stopping a session whose Active
Source Set is `[1, 2]` and whose cursor is 5 leaves the sources unstopped
and registered and the cursor at 5 — the code never touches `sourcesRef` or
`nextStartTimeRef` on stop, contrary to the claimed teardown. -/
theorem C6_stop_keeps_sources_and_cursor :
    (stopLiveComm (AppState.mk true true 1 1 1 true true true 5 [1, 2])).sources = [1, 2] ∧
    (stopLiveComm (AppState.mk true true 1 1 1 true true true 5 [1, 2])).nextStartTime = 5 ∧
    (stopLiveComm (AppState.mk true true 1 1 1 true true true 5 [1, 2])).isLiveActive = false :=
  ⟨rfl, rfl, rfl⟩

/-- Counterexample for C7: when the error callback fires during an Active
session, the is-session-active flag does not become false — `onerror` only
logs. -/
theorem C7_counterexample :
    ¬ (onerror (AppState.mk true true 1 1 1 true true true 0 [])).isLiveActive = false := by
  intro h
  simp [onerror] at h

/-- C7 as amended: the error callback logs and leaves the session state
unchanged (in particular the active flag keeps its value); the flag becomes
false only through the close callback. -/
theorem C7_onerror_amended (s : AppState) :
    onerror s = s ∧ (onclose s).isLiveActive = false :=
  ⟨rfl, rfl⟩

/-- C10: an inbound message with no audio payload, or one arriving while the
output-context ref is unset, leaves the state — in particular the Playback
Cursor and the Active Source Set — unchanged and schedules nothing. -/
theorem C10_no_payload_no_ctx (s : AppState) (now : ℚ) (payload : Option (List Char))
    (srcId : ℕ) :
    onmessage s now none srcId = s ∧
    (s.outCtxSet = false → onmessage s now payload srcId = s) := by
  constructor
  · rfl
  · intro h
    cases payload with
    | none => rfl
    | some b64 => simp [onmessage, h]

/-- Witness for C10 at the initial state with a nonempty payload. -/
theorem C10_no_payload_no_ctx_witness :
    onmessage initState 0 none 5 = initState ∧
    onmessage initState 0 (some ['A']) 5 = initState :=
  ⟨(C10_no_payload_no_ctx initState 0 (some ['A']) 5).1,
   (C10_no_payload_no_ctx initState 0 (some ['A']) 5).2 rfl⟩

end OmniDock
